import Mathlib

/-!
Shallow embedding of the Resource Ledger and Admission-Control subsystem of
the crawling engine: the `CreditService` class (balances, transaction log,
two-phase reservations, cost formulas) from `src/src/services/crawler.js`,
and the `RateLimiter` class (sliding windows, concurrency sets) from
`src/unnamed/part_009`.

Modelling conventions:
- The Redis backing store (`@upstash/redis`) is modelled per key family:
  counters as `String → Int` (GET on a missing key yields null, which
  `parseInt(...) || 0` turns into 0, so absent = 0), hashes holding
  reservations as an association list (HGETALL on a missing key yields null,
  modelled as `Option`), transaction hashes as `Nat → Option Tx` keyed by the
  `Date.now()` value used as transaction id, history lists as `String →
  List Nat` where LPUSH prepends, and sorted sets / plain sets as lists of
  members (with ZADD updating the score of an existing member and SADD
  deduplicating).
- Wall-clock reads (`Date.now()`, `Math.random()` request ids) are passed in
  as explicit arguments.
- JavaScript numbers are modelled as `Int` (amounts, balances) or `ℚ` where
  the source computes with fractional values (cost formulas); `Math.ceil` is
  `Int.ceil`.
- `throw new Error(...)` is modelled with `Except`.
-/

namespace CrawlEngine

/-! ## Credit service state (`CreditService` in src/src/services/crawler.js) -/

inductive TxKind
  | add
  | deduct
deriving DecidableEq, Repr

/-- A transaction hash `credit_tx:{txId}`: fields written by `hset` in
`addCredits` / `deductCredits`. The ISO timestamp string is modelled by the
same `Nat` clock value that provides the transaction id. -/
structure Tx where
  userId : String
  amount : Int
  kind : TxKind
  reason : String
  timestamp : Nat
deriving DecidableEq, Repr

/-- A reservation hash `credit_reservation:{operationId}` written by
`reserveCredits`. -/
structure Resv where
  userId : String
  amount : Int
  timestamp : Nat
deriving DecidableEq, Repr

/-- The Redis keyspace used by `CreditService`:
`credits:{userId}`, `credit_tx:{txId}`, `credit_history:{userId}`,
`credit_reservation:{operationId}`. -/
structure CreditState where
  credits : String → Int
  txs : Nat → Option Tx
  history : String → List Nat
  reservations : List (String × Resv)

inductive CreditErr
  | insufficientCredits
  | reservationNotFound
deriving DecidableEq, Repr

/-- HGETALL on `credit_reservation:{operationId}`: `null` (here `none`) when
the key is absent. -/
def lookupResv (l : List (String × Resv)) (operationId : String) : Option Resv :=
  match l.find? (fun p => p.1 == operationId) with
  | some p => some p.2
  | none => none

/-- HSET on `credit_reservation:{operationId}`: overwrites the fields stored
under that key. -/
def hsetResv (l : List (String × Resv)) (operationId : String) (r : Resv) :
    List (String × Resv) :=
  (operationId, r) :: l.filter (fun p => p.1 != operationId)

/-- DEL on `credit_reservation:{operationId}`. -/
def delResv (l : List (String × Resv)) (operationId : String) :
    List (String × Resv) :=
  l.filter (fun p => p.1 != operationId)

/-- `getBalance`: `parseInt(await redis.get(...)) || 0`. -/
def getBalance (st : CreditState) (userId : String) : Int :=
  st.credits userId

/-- `addCredits(userId, amount, reason)`: INCRBY the balance, HSET the
transaction hash under `txId = Date.now()`, LPUSH the id onto the user's
history, return the id. `now` stands for the `Date.now()` reading. -/
def addCredits (st : CreditState) (userId : String) (amount : Int)
    (reason : String) (now : Nat) : Nat × CreditState :=
  (now,
   { st with
     credits := fun u => if u = userId then st.credits u + amount else st.credits u
     txs := fun i => if i = now then some ⟨userId, amount, .add, reason, now⟩ else st.txs i
     history := fun u => if u = userId then now :: st.history u else st.history u })

/-- `deductCredits(userId, amount, reason)`: read the balance, throw
`Insufficient credits` if `balance < amount`, otherwise DECRBY the balance,
HSET a transaction with amount `-amount`, LPUSH its id. -/
def deductCredits (st : CreditState) (userId : String) (amount : Int)
    (reason : String) (now : Nat) : Except CreditErr (Nat × CreditState) :=
  let balance := getBalance st userId
  if balance < amount then .error .insufficientCredits
  else .ok (now,
    { st with
      credits := fun u => if u = userId then st.credits u - amount else st.credits u
      txs := fun i => if i = now then some ⟨userId, -amount, .deduct, reason, now⟩ else st.txs i
      history := fun u => if u = userId then now :: st.history u else st.history u })

/-- `reserveCredits(userId, amount, operationId)`: read the balance, throw
`Insufficient credits` if `balance < amount`, otherwise DECRBY the balance
and HSET the reservation hash. No transaction is logged and no check on a
pre-existing reservation under the same `operationId` is made. -/
def reserveCredits (st : CreditState) (userId : String) (amount : Int)
    (operationId : String) (now : Nat) : Except CreditErr CreditState :=
  let balance := getBalance st userId
  if balance < amount then .error .insufficientCredits
  else .ok
    { st with
      credits := fun u => if u = userId then st.credits u - amount else st.credits u
      reservations := hsetResv st.reservations operationId ⟨userId, amount, now⟩ }

/-- `releaseReservation(operationId, success)`: HGETALL the reservation,
throw `Reservation not found` on `null`; INCRBY the held amount back only
when `success` is false; DEL the reservation key in both cases. -/
def releaseReservation (st : CreditState) (operationId : String)
    (success : Bool) : Except CreditErr CreditState :=
  match lookupResv st.reservations operationId with
  | none => .error .reservationNotFound
  | some r => .ok
    { st with
      credits :=
        if success then st.credits
        else fun u => if u = r.userId then st.credits u + r.amount else st.credits u
      reservations := delResv st.reservations operationId }

/-- Redis LRANGE over a list value: negative indices count from the end,
bounds are clamped, both endpoints inclusive. -/
def redisLrange {α : Type} (l : List α) (start stop : Int) : List α :=
  let n : Int := l.length
  let s : Int := max (if start < 0 then n + start else start) 0
  let e : Int := min (if stop < 0 then n + stop else stop) (n - 1)
  if s > e then [] else (l.drop s.toNat).take (e - s + 1).toNat

/-- One element of the list returned by `getTransactionHistory`:
`{ id: txIds[i], ...tx }` where `tx` is the HGETALL result (possibly null). -/
structure TxRecord where
  id : Nat
  tx : Option Tx
deriving DecidableEq, Repr

/-- `getTransactionHistory(userId, limit = 10)`: LRANGE the history ids from
0 to `limit - 1`, then HGETALL each transaction hash. -/
def getTransactionHistory (st : CreditState) (userId : String)
    (limit : Int) : List TxRecord :=
  let txIds := redisLrange (st.history userId) 0 (limit - 1)
  txIds.map (fun txId => ⟨txId, st.txs txId⟩)

/-! ## Cost formulas -/

/-- `calculateCrawlCost(pages, depth = 1, customChecks = 0)`:
`cost = pages; if (depth > 1) cost *= 1 + (depth-1)*0.5; cost += customChecks*2;
return Math.ceil(cost)`. Arithmetic is modelled exactly over `ℚ`. -/
def calculateCrawlCost (pages depth customChecks : ℕ) : ℤ :=
  let cost : ℚ := pages
  let cost : ℚ := if depth > 1 then cost * (1 + ((depth - 1 : ℕ) : ℚ) * (0.5 : ℚ)) else cost
  let cost : ℚ := cost + (customChecks : ℚ) * 2
  ⌈cost⌉

/-- `calculateRecheckCost(issueCount)`: `Math.ceil(issueCount * 0.5)`. -/
def calculateRecheckCost (issueCount : ℕ) : ℤ :=
  ⌈(issueCount : ℚ) * (0.5 : ℚ)⌉

/-- The spec's closed-form crawl-cost formula
`ceil(pages × (1 + max(0, depth-1) × 0.5) + customChecks × 2)`, written from
the spec's words for comparison with `calculateCrawlCost`. -/
def specCrawlCost (pages depth customChecks : ℕ) : ℤ :=
  ⌈(pages : ℚ) * (1 + ((max 0 ((depth : ℤ) - 1) : ℤ) : ℚ) * (0.5 : ℚ))
    + (customChecks : ℚ) * 2⌉

/-! ## Rate limiter (`RateLimiter` in src/unnamed/part_009) -/

/-- The `this.limits` configuration object. -/
structure RateLimits where
  userRequests : Nat
  userWindow : Nat
  domainRequests : Nat
  domainWindow : Nat
  domainConcurrent : Nat
deriving DecidableEq, Repr

/-- The defaults set in the constructor: 100 requests / 3600 s per user,
60 requests / 3600 s and 3 concurrent per domain. -/
def defaultLimits : RateLimits :=
  { userRequests := 100, userWindow := 3600
    domainRequests := 60, domainWindow := 3600, domainConcurrent := 3 }

/-- The Redis keyspace used by `RateLimiter`: sorted sets
`ratelimit:user:{userId}` and `ratelimit:domain:{domain}` of
(member, score) pairs, plain sets `ratelimit:concurrent:{domain}`, plus the
expiry deadlines installed by `expire`. -/
structure RLState where
  userWindow : String → List (String × Nat)
  domainWindow : String → List (String × Nat)
  concurrent : String → List String
  userExpiry : String → Option Nat
  domainExpiry : String → Option Nat
  concurrentExpiry : String → Option Nat

def emptyRL : RLState :=
  ⟨fun _ => [], fun _ => [], fun _ => [], fun _ => none, fun _ => none, fun _ => none⟩

/-- ZREMRANGEBYSCORE key minScore maxScore: drop members whose score lies in
the inclusive range. -/
def zremrangebyscore (l : List (String × Nat)) (minScore maxScore : Int) :
    List (String × Nat) :=
  l.filter (fun e => !(decide (minScore ≤ (e.2 : Int)) && decide ((e.2 : Int) ≤ maxScore)))

/-- ZADD key score member: update the score when the member is present,
insert it otherwise. -/
def zadd (l : List (String × Nat)) (score : Nat) (member : String) :
    List (String × Nat) :=
  if l.any (fun e => e.1 == member)
  then l.map (fun e => if e.1 == member then (member, score) else e)
  else (member, score) :: l

/-- SADD key member. -/
def sadd (l : List String) (member : String) : List String :=
  if member ∈ l then l else member :: l

inductive RLErr
  | userRateLimit
  | domainRateLimit
  | concurrencyLimit
deriving DecidableEq, Repr

/-- The purge half of the `isAllowed` pipeline: ZREMRANGEBYSCORE both window
keys from 0 up to `now - window`. -/
def purgeWindows (lim : RateLimits) (st : RLState) (userId domain : String)
    (now : Nat) : RLState :=
  { st with
    userWindow := fun u =>
      if u = userId then zremrangebyscore (st.userWindow u) 0 ((now : Int) - lim.userWindow)
      else st.userWindow u
    domainWindow := fun d =>
      if d = domain then zremrangebyscore (st.domainWindow d) 0 ((now : Int) - lim.domainWindow)
      else st.domainWindow d }

/-- `isAllowed(userId, domain)`: one pipeline first ZREMRANGEBYSCOREs both
window keys up to `now - window`, then ZCARDs them and SCARDs the concurrency
set; the three limit checks run on the post-purge counts in user, domain,
concurrency order. The purges take effect even when a limit check throws, so
the (possibly failing) result is paired with the purged state. -/
def isAllowed (lim : RateLimits) (st : RLState) (userId domain : String)
    (now : Nat) : RLState × Option RLErr :=
  let st1 : RLState := purgeWindows lim st userId domain now
  let userCount := (st1.userWindow userId).length
  let domainCount := (st1.domainWindow domain).length
  let concurrentCount := (st1.concurrent domain).length
  if userCount ≥ lim.userRequests then (st1, some .userRateLimit)
  else if domainCount ≥ lim.domainRequests then (st1, some .domainRateLimit)
  else if concurrentCount ≥ lim.domainConcurrent then (st1, some .concurrencyLimit)
  else (st1, none)

/-- `trackRequest(userId, domain)`: ZADD the fresh request id into both
window sets scored by `now`, SADD it into the concurrency set, then EXPIRE
the window keys after one window length and the concurrency key after 300 s.
The `${userId}:${now}:${Math.random()}` id is passed in as `requestId`. -/
def trackRequest (lim : RateLimits) (st : RLState) (userId domain : String)
    (now : Nat) (requestId : String) : String × RLState :=
  (requestId,
   { st with
     userWindow := fun u =>
       if u = userId then zadd (st.userWindow u) now requestId else st.userWindow u
     domainWindow := fun d =>
       if d = domain then zadd (st.domainWindow d) now requestId else st.domainWindow d
     concurrent := fun d =>
       if d = domain then sadd (st.concurrent d) requestId else st.concurrent d
     userExpiry := fun u =>
       if u = userId then some (now + lim.userWindow) else st.userExpiry u
     domainExpiry := fun d =>
       if d = domain then some (now + lim.domainWindow) else st.domainExpiry d
     concurrentExpiry := fun d =>
       if d = domain then some (now + 300) else st.concurrentExpiry d })

/-- The spec's `Admit`: `isAllowed` followed, on success, by `trackRequest`
(the composition performed by the route/worker callers). -/
def acceptRequest (lim : RateLimits) (st : RLState) (userId domain : String)
    (now : Nat) (requestId : String) : RLState × Except RLErr String :=
  match isAllowed lim st userId domain now with
  | (st1, some e) => (st1, .error e)
  | (st1, none) =>
      let p := trackRequest lim st1 userId domain now requestId
      (p.2, .ok p.1)

/-- `completeRequest(domain, requestId)`: SREM the id from the domain's
concurrency set. -/
def completeRequest (st : RLState) (domain : String) (requestId : String) :
    RLState :=
  { st with
    concurrent := fun d =>
      if d = domain then (st.concurrent d).filter (fun m => m != requestId)
      else st.concurrent d }

/-! ## Interleaved deductions (the `await` structure of `deductCredits`)

`deductCredits` performs two separate store round trips: `await
this.getBalance(userId)` (one GET), and after the local `balance < amount`
check an unconditional `pipeline.decrby(...)`/`exec`. Between the two, other
operations on the same key may run. Each in-flight deduction is therefore a
small state machine whose atomic steps are exactly those round trips. -/

inductive DeductPhase
  | start
  | checked (localBalance : Int)
  | done (succeeded : Bool)
deriving DecidableEq, Repr

/-- The shared balance together with the in-flight deductions
(amount, phase). -/
structure RacyState where
  balance : Int
  ops : List (Int × DeductPhase)
deriving DecidableEq, Repr

/-- One atomic step of a deduction: `start → checked` is the GET round trip
(the stale local copy of the balance); `checked → done` is the local
comparison followed by the unconditional DECRBY (or the throw when the local
copy is short). -/
def stepDeduct (balance : Int) : Int × DeductPhase → Int × (Int × DeductPhase)
  | (a, .start) => (balance, (a, .checked balance))
  | (a, .checked l) =>
      if l < a then (balance, (a, .done false))
      else (balance - a, (a, .done true))
  | (a, .done b) => (balance, (a, .done b))

/-- Run the deductions under a schedule: each entry names which in-flight
operation takes its next atomic step. -/
def runRacy (st : RacyState) : List Nat → RacyState
  | [] => st
  | i :: rest =>
      match st.ops[i]? with
      | none => runRacy st rest
      | some op =>
          let p := stepDeduct st.balance op
          runRacy ⟨p.1, st.ops.set i p.2⟩ rest

/-! ## Single-user call traces over the credit service -/

/-- One ledger call for a fixed user, as in §8 of the spec. -/
inductive Call
  | add (amount : Int) (reason : String)
  | deduct (amount : Int) (reason : String)
  | reserve (amount : Int) (operationId : String)
  | release (operationId : String) (success : Bool)

/-- The spec's `amount > 0` hypothesis on each call. -/
def positiveAmount : Call → Prop
  | .add a _ => 0 < a
  | .deduct a _ => 0 < a
  | .reserve a _ => 0 < a
  | .release _ _ => True

/-- Execute one call for user `u` at clock value `n`; a thrown error leaves
the store unchanged (every throw in the source happens before any write). -/
def execCall (u : String) (n : Nat) (st : CreditState) : Call → CreditState
  | .add a r => (addCredits st u a r n).2
  | .deduct a r =>
      match deductCredits st u a r n with
      | .ok p => p.2
      | .error _ => st
  | .reserve a op =>
      match reserveCredits st u a op n with
      | .ok st' => st'
      | .error _ => st
  | .release op s =>
      match releaseReservation st op s with
      | .ok st' => st'
      | .error _ => st

/-- Ghost accounting for the amended ledger invariant: the credits forfeited
by a `releaseReservation(_, true)` (the hold is kept, never refunded and
never logged as a transaction). -/
def keptDelta (st : CreditState) : Call → Int
  | .release op true =>
      match lookupResv st.reservations op with
      | some r => r.amount
      | none => 0
  | _ => 0

/-- Run a call trace, threading the clock (one tick per call, so transaction
ids are fresh) and the kept-holds ghost total. -/
def runCalls (u : String) (n : Nat) (st : CreditState) (kept : Int) :
    List Call → CreditState × Int
  | [] => (st, kept)
  | c :: cs => runCalls u (n + 1) (execCall u n st c) (kept + keptDelta st c) cs

/-- The store before any operation: every balance reads 0, no transactions,
no history, no reservations. -/
def emptyCredit : CreditState :=
  ⟨fun _ => 0, fun _ => none, fun _ => [], []⟩

/-- Sum of the recorded transaction deltas for user `u`: every id in the
user's history list, resolved through the transaction hashes. -/
def txSum (st : CreditState) (u : String) : Int :=
  ((st.history u).map (fun i =>
    match st.txs i with
    | some tx => tx.amount
    | none => 0)).sum

/-- Total amount held for user `u` in a reservation store. -/
def resvSum (l : List (String × Resv)) (u : String) : Int :=
  ((l.filter (fun p => p.2.userId == u)).map (fun p => p.2.amount)).sum

/-- Total amount currently held by pending reservations of user `u`. -/
def pendingSum (st : CreditState) (u : String) : Int :=
  resvSum st.reservations u

/-- Freshness of one call: a `reserve` call must not target a pending
operation id (the source would silently overwrite the hold). -/
def reserveFresh (st : CreditState) : Call → Prop
  | .reserve _ op => lookupResv st.reservations op = none
  | _ => True

instance : ∀ (st : CreditState) (c : Call), Decidable (reserveFresh st c)
  | _, .add _ _ => isTrue trivial
  | _, .deduct _ _ => isTrue trivial
  | st, .reserve _ op =>
      inferInstanceAs (Decidable (lookupResv st.reservations op = none))
  | _, .release _ _ => isTrue trivial

/-- No `reserve` call in the trace reuses an operation id that is still
pending when the call runs. -/
def freshOpIds (u : String) (n : Nat) (st : CreditState) : List Call → Prop
  | [] => True
  | c :: cs => reserveFresh st c ∧ freshOpIds u (n + 1) (execCall u n st c) cs

/-- The inductive invariant of a single-user trace: non-negative balance,
the accounting identity between balance, pending holds, kept holds and the
transaction log, well-formed reservations, and freshness of future
transaction ids. -/
def LedgerInv (u : String) (n : Nat) (st : CreditState) (kept : Int) : Prop :=
  0 ≤ st.credits u ∧
  st.credits u + pendingSum st u + kept = txSum st u ∧
  (∀ p ∈ st.reservations, p.2.userId = u ∧ 0 < p.2.amount) ∧
  (∀ i ∈ st.history u, i < n) ∧
  (st.reservations.map Prod.fst).Nodup

/-! ## Auxiliary definitions for concrete scenarios and result extraction -/

/-- Result-state extractor for a release call known to succeed. -/
def okOr (e : Except CreditErr CreditState) (dflt : CreditState) : CreditState :=
  match e with
  | .ok s => s
  | .error _ => dflt

instance {ε α : Type} [DecidableEq ε] [DecidableEq α] : DecidableEq (Except ε α) := fun x y =>
  match x, y with
  | .ok a, .ok b =>
      if h : a = b then isTrue (by rw [h]) else isFalse (by simp [h])
  | .error a, .error b =>
      if h : a = b then isTrue (by rw [h]) else isFalse (by simp [h])
  | .ok _, .error _ => isFalse (by simp)
  | .error _, .ok _ => isFalse (by simp)

/-- Trace for the ledger counterexample: one grant, then one hold. -/
def c1Trace : List Call := [Call.add 10 "grant", Call.reserve 5 "op1"]

/-- A user with 20 credits, as in the spec's reservation-refund scenario. -/
def c3State : CreditState := (addCredits emptyCredit "u" 20 "grant" 0).2

/-- A user granted 100 credits who then reserved 14 under "op1", as in the
spec's double-hold scenario (balance 86, one pending hold). -/
def c4State : CreditState :=
  execCall "u" 1 (addCredits emptyCredit "u" 100 "grant" 0).2 (Call.reserve 14 "op1")

/-- A user with a single logged transaction. -/
def c9State : CreditState := (addCredits emptyCredit "u" 5 "grant" 0).2

/-- Rate-limiter states of the spec's concurrency-cap scenario: one, two and
three admissions for user "u" on domain "d" without any completion. -/
def rlSt1 : RLState := (acceptRequest defaultLimits emptyRL "u" "d" 0 "r1").1

def rlSt2 : RLState := (acceptRequest defaultLimits rlSt1 "u" "d" 0 "r2").1

def rlSt3 : RLState := (acceptRequest defaultLimits rlSt2 "u" "d" 0 "r3").1

/-! ## Helper lemmas on the reservation store -/

lemma lookupResv_cons (p : String × Resv) (t : List (String × Resv)) (op : String) :
    lookupResv (p :: t) op = if p.1 = op then some p.2 else lookupResv t op := by
  by_cases h : p.1 = op
  · rw [if_pos h]
    unfold lookupResv
    rw [List.find?_cons_of_pos _ (by simp [h])]
  · rw [if_neg h]
    unfold lookupResv
    rw [List.find?_cons_of_neg _ (by simp [h])]

lemma lookupResv_eq_none_iff (l : List (String × Resv)) (op : String) :
    lookupResv l op = none ↔ op ∉ l.map Prod.fst := by
  induction l with
  | nil => simp [lookupResv]
  | cons p t ih =>
      rw [lookupResv_cons, List.map_cons]
      by_cases hp : p.1 = op
      · simp [hp]
      · simp [hp, ih, Ne.symm hp]

lemma filter_ne_self (l : List (String × Resv)) (op : String)
    (h : lookupResv l op = none) : l.filter (fun p => p.1 != op) = l := by
  induction l with
  | nil => rfl
  | cons p t ih =>
      rw [lookupResv_cons] at h
      by_cases hp : p.1 = op
      · rw [if_pos hp] at h; cases h
      · rw [if_neg hp] at h
        simp [List.filter_cons, hp, ih h]

lemma lookupResv_delResv_self (l : List (String × Resv)) (op : String) :
    lookupResv (delResv l op) op = none := by
  induction l with
  | nil => rfl
  | cons p t ih =>
      unfold delResv at ih ⊢
      by_cases hp : p.1 = op
      · simpa [List.filter_cons, hp] using ih
      · simpa [List.filter_cons, hp, lookupResv_cons] using ih

lemma lookupResv_hsetResv_self (l : List (String × Resv)) (op : String) (r : Resv) :
    lookupResv (hsetResv l op r) op = some r := by
  simp [hsetResv, lookupResv_cons]

lemma lookupResv_mem (l : List (String × Resv)) (op : String) (r : Resv)
    (h : lookupResv l op = some r) : ∃ p ∈ l, p.2 = r ∧ p.1 = op := by
  unfold lookupResv at h
  rcases hf : l.find? (fun p => p.1 == op) with _ | p
  · rw [hf] at h; cases h
  · rw [hf] at h
    injection h with h
    refine ⟨p, List.mem_of_find?_eq_some hf, h, ?_⟩
    have := List.find?_some hf
    simpa using this

lemma nodup_delResv (l : List (String × Resv)) (op : String)
    (h : (l.map Prod.fst).Nodup) : ((delResv l op).map Prod.fst).Nodup :=
  h.sublist ((List.filter_sublist l).map Prod.fst)

lemma resvSum_cons (p : String × Resv) (t : List (String × Resv)) (u : String) :
    resvSum (p :: t) u = (if p.2.userId = u then p.2.amount else 0) + resvSum t u := by
  by_cases h : p.2.userId = u <;> simp [resvSum, List.filter_cons, h]

lemma resvSum_delResv (l : List (String × Resv)) (op : String) (r : Resv) (u : String)
    (h : lookupResv l op = some r) (hnd : (l.map Prod.fst).Nodup) :
    resvSum (delResv l op) u = resvSum l u - (if r.userId = u then r.amount else 0) := by
  induction l with
  | nil => cases h
  | cons p t ih =>
      rw [lookupResv_cons] at h
      rw [List.map_cons, List.nodup_cons] at hnd
      by_cases hp : p.1 = op
      · rw [if_pos hp] at h
        injection h with h
        subst h
        have ht : lookupResv t op = none :=
          (lookupResv_eq_none_iff t op).mpr (by rw [← hp]; exact hnd.1)
        unfold delResv
        rw [List.filter_cons_of_neg (by simp [hp]), filter_ne_self t op ht, resvSum_cons]
        ring
      · rw [if_neg hp] at h
        unfold delResv at ih ⊢
        rw [List.filter_cons_of_pos (by simp [hp]), resvSum_cons, resvSum_cons,
          ih h hnd.2]
        ring

lemma txSum_cons_fresh (hist : List Nat) (txs : Nat → Option Tx) (n : Nat) (tx : Tx)
    (hfresh : ∀ i ∈ hist, i < n) :
    ((n :: hist).map (fun i =>
        match (if i = n then some tx else txs i) with
        | some t => t.amount
        | none => 0)).sum
      = tx.amount + (hist.map (fun i =>
          match txs i with
          | some t => t.amount
          | none => 0)).sum := by
  rw [List.map_cons, List.sum_cons, if_pos rfl]
  congr 1
  refine congrArg List.sum (List.map_congr_left ?_)
  intro i hi
  rw [if_neg (Nat.ne_of_lt (hfresh i hi))]

/-! ## The ledger invariant -/

lemma ledgerInv_step (u : String) (n : Nat) (st : CreditState) (kept : Int) (c : Call)
    (hpos : positiveAmount c)
    (hfresh : reserveFresh st c)
    (h : LedgerInv u n st kept) :
    LedgerInv u (n + 1) (execCall u n st c) (kept + keptDelta st c) := by
  obtain ⟨h1, h2, h3, h4, h5⟩ := h
  cases c with
  | add a r =>
      simp only [positiveAmount] at hpos
      simp only [execCall, addCredits, keptDelta, add_zero]
      refine ⟨?_, ?_, h3, ?_, h5⟩
      · simp only [eq_self_iff_true, if_true]
        linarith
      · show _ + pendingSum _ u + _ = txSum _ u
        unfold txSum pendingSum
        simp only [eq_self_iff_true, if_true]
        rw [txSum_cons_fresh (st.history u) st.txs n _ h4]
        unfold txSum pendingSum at h2
        linarith
      · intro i hi
        simp only [eq_self_iff_true, if_true, List.mem_cons] at hi
        rcases hi with rfl | hi
        · omega
        · exact Nat.lt_succ_of_lt (h4 i hi)
  | deduct a r =>
      simp only [positiveAmount] at hpos
      by_cases hba : getBalance st u < a
      · simp only [execCall, deductCredits, if_pos hba, keptDelta, add_zero]
        exact ⟨h1, h2, h3, fun i hi => Nat.lt_succ_of_lt (h4 i hi), h5⟩
      · simp only [execCall, deductCredits, if_neg hba, keptDelta, add_zero]
        have hba' : a ≤ st.credits u := not_lt.mp hba
        refine ⟨?_, ?_, h3, ?_, h5⟩
        · simp only [eq_self_iff_true, if_true]
          linarith
        · show _ + pendingSum _ u + _ = txSum _ u
          unfold txSum pendingSum
          simp only [eq_self_iff_true, if_true]
          rw [txSum_cons_fresh (st.history u) st.txs n _ h4]
          unfold txSum pendingSum at h2
          dsimp only
          linarith
        · intro i hi
          simp only [eq_self_iff_true, if_true, List.mem_cons] at hi
          rcases hi with rfl | hi
          · omega
          · exact Nat.lt_succ_of_lt (h4 i hi)
  | reserve a op =>
      simp only [positiveAmount] at hpos
      simp only [reserveFresh] at hfresh
      by_cases hba : getBalance st u < a
      · simp only [execCall, reserveCredits, if_pos hba, keptDelta, add_zero]
        exact ⟨h1, h2, h3, fun i hi => Nat.lt_succ_of_lt (h4 i hi), h5⟩
      · simp only [execCall, reserveCredits, if_neg hba, keptDelta, add_zero]
        have hba' : a ≤ st.credits u := not_lt.mp hba
        have hflt : st.reservations.filter (fun p => p.1 != op) = st.reservations :=
          filter_ne_self _ _ hfresh
        refine ⟨?_, ?_, ?_, fun i hi => Nat.lt_succ_of_lt (h4 i hi), ?_⟩
        · simp only [eq_self_iff_true, if_true]
          linarith
        · show _ + pendingSum _ u + _ = txSum _ u
          unfold txSum pendingSum
          simp only [hsetResv, hflt, resvSum_cons, eq_self_iff_true, if_true]
          unfold txSum pendingSum at h2
          linarith
        · intro p hp
          simp only [hsetResv, hflt, List.mem_cons] at hp
          rcases hp with rfl | hp
          · exact ⟨rfl, hpos⟩
          · exact h3 p hp
        · show ((hsetResv st.reservations op _).map Prod.fst).Nodup
          rw [hsetResv, hflt, List.map_cons, List.nodup_cons]
          exact ⟨(lookupResv_eq_none_iff _ _).mp hfresh, h5⟩
  | release op s =>
      rcases hr : lookupResv st.reservations op with _ | r
      · cases s <;>
          simp only [execCall, releaseReservation, hr, keptDelta, add_zero] <;>
          exact ⟨h1, h2, h3, fun i hi => Nat.lt_succ_of_lt (h4 i hi), h5⟩
      · obtain ⟨p, hpmem, hp2, hp1⟩ := lookupResv_mem _ _ _ hr
        obtain ⟨hru, hra⟩ := h3 p hpmem
        rw [hp2] at hru hra
        have hsum := resvSum_delResv st.reservations op r u hr h5
        rw [if_pos hru] at hsum
        cases s with
        | false =>
            simp only [execCall, releaseReservation, hr, keptDelta, add_zero,
              if_neg Bool.false_ne_true]
            refine ⟨?_, ?_, ?_, fun i hi => Nat.lt_succ_of_lt (h4 i hi),
              nodup_delResv _ _ h5⟩
            · simp only [hru, eq_self_iff_true, if_true]
              linarith
            · show _ + pendingSum _ u + _ = txSum _ u
              unfold txSum pendingSum
              simp only [hru, eq_self_iff_true, if_true]
              unfold txSum pendingSum at h2
              rw [hsum]
              linarith
            · intro q hq
              exact h3 q (List.mem_of_mem_filter hq)
        | true =>
            simp only [execCall, releaseReservation, hr, keptDelta,
              eq_self_iff_true, if_true]
            refine ⟨h1, ?_, ?_, fun i hi => Nat.lt_succ_of_lt (h4 i hi),
              nodup_delResv _ _ h5⟩
            · show _ + pendingSum _ u + _ = txSum _ u
              unfold txSum pendingSum
              unfold txSum pendingSum at h2
              rw [hsum]
              linarith
            · intro q hq
              exact h3 q (List.mem_of_mem_filter hq)

lemma ledgerInv_run (u : String) (cs : List Call) :
    ∀ (n : Nat) (st : CreditState) (kept : Int),
      (∀ c ∈ cs, positiveAmount c) → freshOpIds u n st cs → LedgerInv u n st kept →
      LedgerInv u (n + cs.length) (runCalls u n st kept cs).1 (runCalls u n st kept cs).2 := by
  induction cs with
  | nil =>
      intro n st kept _ _ h
      simpa [runCalls] using h
  | cons c t ih =>
      intro n st kept hpos hfresh h
      obtain ⟨hf1, hf2⟩ := hfresh
      have h' := ledgerInv_step u n st kept c (hpos c (List.mem_cons_self c t)) hf1 h
      have hrun := ih (n + 1) (execCall u n st c) (kept + keptDelta st c)
        (fun c' hc' => hpos c' (List.mem_cons_of_mem c hc')) hf2 h'
      have e : n + (c :: t).length = n + 1 + t.length := by
        simp [List.length_cons]
        omega
      rw [e]
      simpa [runCalls] using hrun

lemma freshOpIds_take (u : String) (cs : List Call) :
    ∀ (n : Nat) (st : CreditState) (k : Nat),
      freshOpIds u n st cs → freshOpIds u n st (cs.take k) := by
  induction cs with
  | nil =>
      intro n st k h
      simpa [List.take_nil] using h
  | cons c t ih =>
      intro n st k h
      cases k with
      | zero => trivial
      | succ k =>
          obtain ⟨h1, h2⟩ := h
          exact ⟨h1, ih _ _ k h2⟩

/-- Non-negativity needs no freshness hypothesis: one call for user `u`
preserves a non-negative balance and positivity of every stored hold
(overwriting a pending hold keeps this, since the new hold is positive). -/
lemma nonnegInv_step (u : String) (n : Nat) (st : CreditState) (c : Call)
    (hpos : positiveAmount c)
    (h1 : 0 ≤ st.credits u)
    (h2 : ∀ p ∈ st.reservations, 0 < p.2.amount) :
    0 ≤ (execCall u n st c).credits u ∧
    ∀ p ∈ (execCall u n st c).reservations, 0 < p.2.amount := by
  cases c with
  | add a r =>
      simp only [positiveAmount] at hpos
      simp only [execCall, addCredits]
      refine ⟨?_, h2⟩
      simp only [eq_self_iff_true, if_true]
      linarith
  | deduct a r =>
      simp only [positiveAmount] at hpos
      by_cases hba : getBalance st u < a
      · simp only [execCall, deductCredits, if_pos hba]
        exact ⟨h1, h2⟩
      · simp only [execCall, deductCredits, if_neg hba]
        have hba' : a ≤ st.credits u := not_lt.mp hba
        refine ⟨?_, h2⟩
        simp only [eq_self_iff_true, if_true]
        linarith
  | reserve a op =>
      simp only [positiveAmount] at hpos
      by_cases hba : getBalance st u < a
      · simp only [execCall, reserveCredits, if_pos hba]
        exact ⟨h1, h2⟩
      · simp only [execCall, reserveCredits, if_neg hba]
        have hba' : a ≤ st.credits u := not_lt.mp hba
        constructor
        · simp only [eq_self_iff_true, if_true]
          linarith
        · intro p hp
          simp only [hsetResv, List.mem_cons] at hp
          rcases hp with rfl | hp
          · exact hpos
          · exact h2 p (List.mem_of_mem_filter hp)
  | release op s =>
      rcases hr : lookupResv st.reservations op with _ | r
      · cases s <;>
          simp only [execCall, releaseReservation, hr] <;>
          exact ⟨h1, h2⟩
      · obtain ⟨p, hpmem, hp2, hp1⟩ := lookupResv_mem _ _ _ hr
        have hra : 0 < r.amount := hp2 ▸ h2 p hpmem
        cases s with
        | false =>
            simp only [execCall, releaseReservation, hr, if_neg Bool.false_ne_true]
            constructor
            · by_cases hu : u = r.userId
              · rw [if_pos hu]
                linarith
              · rw [if_neg hu]
                exact h1
            · intro q hq
              exact h2 q (List.mem_of_mem_filter hq)
        | true =>
            simp only [execCall, releaseReservation, hr, eq_self_iff_true, if_true]
            refine ⟨h1, ?_⟩
            intro q hq
            exact h2 q (List.mem_of_mem_filter hq)

lemma nonnegInv_run (u : String) (cs : List Call) :
    ∀ (n : Nat) (st : CreditState) (kept : Int),
      (∀ c ∈ cs, positiveAmount c) →
      0 ≤ st.credits u →
      (∀ p ∈ st.reservations, 0 < p.2.amount) →
      0 ≤ (runCalls u n st kept cs).1.credits u := by
  induction cs with
  | nil =>
      intro n st kept _ h1 _
      simpa [runCalls] using h1
  | cons c t ih =>
      intro n st kept hpos h1 h2
      have hstep := nonnegInv_step u n st c (hpos c (List.mem_cons_self c t)) h1 h2
      have htail := ih (n + 1) (execCall u n st c) (kept + keptDelta st c)
        (fun c' hc' => hpos c' (List.mem_cons_of_mem c hc')) hstep.1 hstep.2
      simpa [runCalls] using htail

/-! ## Claim theorems -/

/-- C1 (amended).  Starting from an empty store (every balance 0), for every
single-user trace of AddCredits / DeductCredits / Reserve /
ReleaseReservation calls with positive amounts, the balance is non-negative
after every prefix of the trace — unconditionally, duplicate operationIds
included.  The sum of the recorded transaction deltas, however, equals not
the balance but the balance plus the total held by pending reservations plus
the total forfeited by successful releases (Reserve and ReleaseReservation
never log a transaction; see the counterexample), an accounting identity
proved here under the proviso that no Reserve reuses a still-pending
operationId (a duplicate Reserve overwrites the hold record, losing the
first hold from the pending total as well). -/
theorem creditLedger_invariant (u : String) (cs : List Call) (k : Nat)
    (hpos : ∀ c ∈ cs, positiveAmount c) :
    0 ≤ (runCalls u 0 emptyCredit 0 (cs.take k)).1.credits u ∧
    (freshOpIds u 0 emptyCredit cs →
      (runCalls u 0 emptyCredit 0 (cs.take k)).1.credits u
          + pendingSum (runCalls u 0 emptyCredit 0 (cs.take k)).1 u
          + (runCalls u 0 emptyCredit 0 (cs.take k)).2
        = txSum (runCalls u 0 emptyCredit 0 (cs.take k)).1 u) := by
  have hpos' : ∀ c ∈ cs.take k, positiveAmount c :=
    fun c hc => hpos c (List.take_subset k cs hc)
  constructor
  · exact nonnegInv_run u (cs.take k) 0 emptyCredit 0 hpos' (le_refl 0)
      (fun p hp => absurd hp (List.not_mem_nil p))
  · intro hfresh
    have hfresh' := freshOpIds_take u cs 0 emptyCredit k hfresh
    have hInv0 : LedgerInv u 0 emptyCredit 0 := by
      refine ⟨le_refl 0, ?_, ?_, ?_, ?_⟩ <;>
        simp [emptyCredit, pendingSum, resvSum, txSum]
    have hend := ledgerInv_run u (cs.take k) 0 emptyCredit 0 hpos' hfresh' hInv0
    exact hend.2.1

/-- C1 witness: a concrete four-call trace (grant 10, deduct 3, reserve 5,
release-kept) with positive amounts; the freshness side condition of the
accounting conjunct is discharged concretely as well. -/
theorem creditLedger_invariant_witness :
    0 ≤ (runCalls "u" 0 emptyCredit 0
        ([Call.add 10 "grant", Call.deduct 3 "crawl",
          Call.reserve 5 "op1", Call.release "op1" true].take 4)).1.credits "u" ∧
    (runCalls "u" 0 emptyCredit 0
        ([Call.add 10 "grant", Call.deduct 3 "crawl",
          Call.reserve 5 "op1", Call.release "op1" true].take 4)).1.credits "u"
        + pendingSum (runCalls "u" 0 emptyCredit 0
            ([Call.add 10 "grant", Call.deduct 3 "crawl",
              Call.reserve 5 "op1", Call.release "op1" true].take 4)).1 "u"
        + (runCalls "u" 0 emptyCredit 0
            ([Call.add 10 "grant", Call.deduct 3 "crawl",
              Call.reserve 5 "op1", Call.release "op1" true].take 4)).2
      = txSum (runCalls "u" 0 emptyCredit 0
          ([Call.add 10 "grant", Call.deduct 3 "crawl",
            Call.reserve 5 "op1", Call.release "op1" true].take 4)).1 "u" := by
  have h := creditLedger_invariant "u"
    [Call.add 10 "grant", Call.deduct 3 "crawl",
      Call.reserve 5 "op1", Call.release "op1" true] 4
    (by
      intro c hc
      simp only [List.mem_cons, List.not_mem_nil, or_false] at hc
      rcases hc with rfl | rfl | rfl | rfl <;> simp [positiveAmount])
  exact ⟨h.1, h.2 (by
    refine ⟨trivial, trivial, ?_, trivial, trivial⟩
    decide)⟩

/-- C1 counterexample: after the all-positive trace [AddCredits 10,
Reserve 5] the balance is 5 but the sum of recorded transaction deltas is
10, so the claimed equality "sum of Transaction deltas = balance" fails
(Reserve decrements the balance without logging a transaction). -/
theorem creditLedger_txSum_cex :
    (runCalls "u" 0 emptyCredit 0 c1Trace).1.credits "u" = 5 ∧
    txSum (runCalls "u" 0 emptyCredit 0 c1Trace).1 "u" = 10 ∧
    txSum (runCalls "u" 0 emptyCredit 0 c1Trace).1 "u"
      ≠ (runCalls "u" 0 emptyCredit 0 c1Trace).1.credits "u" := by
  refine ⟨by decide, by decide, by decide⟩

/-- C2 (amended).  `deductCredits` is not an atomic conditional decrement:
it reads the balance in one store round trip and decrements unconditionally
in a later one.  Under the interleaving in which two deductions on the same
user both read the balance before either writes, both pass the stale check
whenever each amount alone is covered by the balance, and the final balance
is the original minus both amounts — negative whenever the two amounts
together exceed the balance (the TOCTOU window the claim denies). -/
theorem deduct_interleaving_unsafe (b a1 a2 : Int)
    (h1 : a1 ≤ b) (h2 : a2 ≤ b) :
    runRacy ⟨b, [(a1, .start), (a2, .start)]⟩ [0, 1, 0, 1]
      = ⟨b - a1 - a2, [(a1, .done true), (a2, .done true)]⟩ ∧
    (b < a1 + a2 →
      (runRacy ⟨b, [(a1, .start), (a2, .start)]⟩ [0, 1, 0, 1]).balance < 0) := by
  have e : runRacy ⟨b, [(a1, .start), (a2, .start)]⟩ [0, 1, 0, 1]
      = ⟨b - a1 - a2, [(a1, .done true), (a2, .done true)]⟩ := by
    simp only [runRacy, stepDeduct, List.getElem?_cons_zero, List.getElem?_cons_succ,
      List.set_cons_zero, List.set_cons_succ, if_neg (not_lt.mpr h1), if_neg (not_lt.mpr h2)]
  refine ⟨e, fun hlt => ?_⟩
  rw [e]
  show b - a1 - a2 < 0
  linarith

/-- C2 witness: balance 10, two concurrent deductions of 10 and 10. -/
theorem deduct_interleaving_unsafe_witness :
    runRacy ⟨10, [(10, .start), (10, .start)]⟩ [0, 1, 0, 1]
      = ⟨10 - 10 - 10, [(10, .done true), (10, .done true)]⟩ ∧
    ((10 : Int) < 10 + 10 →
      (runRacy ⟨10, [(10, .start), (10, .start)]⟩ [0, 1, 0, 1]).balance < 0) :=
  deduct_interleaving_unsafe 10 10 10 (by decide) (by decide)

/-- C2 counterexample: with balance 10 and two concurrent deductions of 10,
the read-read-write-write interleaving of the source's two store round trips
lets both deductions pass the balance check (both finish `done true`) and
drives the stored balance to -10 — refuting "two concurrent deductions
cannot both pass a stale balance check and drive the balance negative". -/
theorem deduct_toctou_cex :
    (runRacy ⟨10, [(10, .start), (10, .start)]⟩ [0, 1, 0, 1]).balance = -10 ∧
    (runRacy ⟨10, [(10, .start), (10, .start)]⟩ [0, 1, 0, 1]).ops
      = [(10, .done true), (10, .done true)] := by
  refine ⟨by decide, by decide⟩

/-- C3 (amended).  `reserveCredits` fails with InsufficientCredits when the
balance is below the amount; otherwise it decrements the balance and records
the reservation under the operationId — but it performs no duplicate-
operation check: a second Reserve with the same operationId also succeeds
(when the balance still suffices), decrements the balance again, and
overwrites the reservation record. -/
theorem reserveCredits_behavior (st1 st2 : CreditState) (u1 u2 : String)
    (a1 a2 : Int) (op1 op2 : String) (n1 n2 n3 : Nat)
    (h1 : getBalance st1 u1 < a1)
    (h2 : a2 + a2 ≤ getBalance st2 u2)
    (ha2 : 0 < a2) :
    reserveCredits st1 u1 a1 op1 n1 = .error .insufficientCredits ∧
    (reserveCredits st2 u2 a2 op2 n2).isOk = true ∧
    (execCall u2 n2 st2 (Call.reserve a2 op2)).credits u2 = st2.credits u2 - a2 ∧
    lookupResv (execCall u2 n2 st2 (Call.reserve a2 op2)).reservations op2
      = some ⟨u2, a2, n2⟩ ∧
    (reserveCredits (execCall u2 n2 st2 (Call.reserve a2 op2)) u2 a2 op2 n3).isOk = true ∧
    (execCall u2 n3 (execCall u2 n2 st2 (Call.reserve a2 op2))
        (Call.reserve a2 op2)).credits u2
      = st2.credits u2 - a2 - a2 ∧
    lookupResv (execCall u2 n3 (execCall u2 n2 st2 (Call.reserve a2 op2))
        (Call.reserve a2 op2)).reservations op2
      = some ⟨u2, a2, n3⟩ := by
  have hge : a2 ≤ getBalance st2 u2 := by linarith
  have hlt2 : ¬ getBalance st2 u2 < a2 := not_lt.mpr hge
  have hlt2' : ¬ st2.credits u2 < a2 := hlt2
  have hlt3 : ¬ st2.credits u2 - a2 < a2 := by
    unfold getBalance at h2
    intro hc
    linarith
  refine ⟨?_, ?_, ?_, ?_, ?_, ?_, ?_⟩
  · simp [reserveCredits, h1]
  · simp [reserveCredits, Except.isOk, Except.toBool, hlt2]
  · simp [execCall, reserveCredits, hlt2]
  · simp [execCall, reserveCredits, hlt2, lookupResv_hsetResv_self]
  · simp [execCall, reserveCredits, getBalance, Except.isOk, Except.toBool, hlt2', hlt3]
  · simp [execCall, reserveCredits, getBalance, hlt2', hlt3]
  · simp [execCall, reserveCredits, getBalance, hlt2', hlt3, lookupResv_hsetResv_self]

/-- C3 witness: a user with no credits fails InsufficientCredits on
Reserve 1; a user with 20 credits succeeds twice with the same "op1". -/
theorem reserveCredits_behavior_witness :
    reserveCredits emptyCredit "u" 1 "opX" 0 = .error .insufficientCredits ∧
    (reserveCredits c3State "u" 10 "op1" 1).isOk = true ∧
    (execCall "u" 1 c3State (Call.reserve 10 "op1")).credits "u"
      = c3State.credits "u" - 10 ∧
    lookupResv (execCall "u" 1 c3State (Call.reserve 10 "op1")).reservations "op1"
      = some ⟨"u", 10, 1⟩ ∧
    (reserveCredits (execCall "u" 1 c3State (Call.reserve 10 "op1")) "u" 10 "op1" 2).isOk
      = true ∧
    (execCall "u" 2 (execCall "u" 1 c3State (Call.reserve 10 "op1"))
        (Call.reserve 10 "op1")).credits "u"
      = c3State.credits "u" - 10 - 10 ∧
    lookupResv (execCall "u" 2 (execCall "u" 1 c3State (Call.reserve 10 "op1"))
        (Call.reserve 10 "op1")).reservations "op1"
      = some ⟨"u", 10, 2⟩ :=
  reserveCredits_behavior emptyCredit c3State "u" "u" 1 10 "opX" "op1" 0 1 2
    (by decide) (by decide) (by decide)

/-- C3 counterexample: with balance 20 and a pending reservation under
"op1", a second `Reserve(u, 10, "op1")` does not fail DuplicateOperation —
it succeeds as well (both of the two same-operationId calls succeed,
refuting "exactly one succeeds"), and the balance is decremented twice. -/
theorem reserve_duplicate_cex :
    (reserveCredits c3State "u" 10 "op1" 1).isOk = true ∧
    (reserveCredits (execCall "u" 1 c3State (Call.reserve 10 "op1")) "u" 10 "op1" 2).isOk
      = true ∧
    (execCall "u" 2 (execCall "u" 1 c3State (Call.reserve 10 "op1"))
        (Call.reserve 10 "op1")).credits "u" = 0 := by
  refine ⟨by decide, by decide, by decide⟩

/-- C4 (confirmed).  For a pending reservation of amount `a`:
`releaseReservation(op, false)` adds `a` back to the holder's balance
(restoring the pre-Reserve balance) and deletes the record;
`releaseReservation(op, true)` deletes the record without touching any
balance, so a following `deductCredits` of the final cost `f` leaves the
user net-charged `a + f` relative to the pre-Reserve balance. -/
theorem releaseReservation_settlement (st : CreditState) (op u : String)
    (a : Int) (ts : Nat) (f : Int) (reason : String) (now : Nat)
    (h : lookupResv st.reservations op = some ⟨u, a, ts⟩)
    (hf : f ≤ st.credits u) :
    (releaseReservation st op false).isOk = true ∧
    (okOr (releaseReservation st op false) st).credits u = st.credits u + a ∧
    lookupResv (okOr (releaseReservation st op false) st).reservations op = none ∧
    (releaseReservation st op true).isOk = true ∧
    (okOr (releaseReservation st op true) st).credits = st.credits ∧
    lookupResv (okOr (releaseReservation st op true) st).reservations op = none ∧
    (deductCredits (okOr (releaseReservation st op true) st) u f reason now).isOk = true ∧
    (execCall u now (okOr (releaseReservation st op true) st)
        (Call.deduct f reason)).credits u
      = st.credits u - f := by
  have hnf : ¬ st.credits u < f := not_lt.mpr hf
  have hfalse : releaseReservation st op false
      = .ok { st with
          credits := fun v => if v = u then st.credits v + a else st.credits v
          reservations := delResv st.reservations op } := by
    unfold releaseReservation
    rw [h]
    rfl
  have htrue : releaseReservation st op true
      = .ok { st with reservations := delResv st.reservations op } := by
    unfold releaseReservation
    rw [h]
    rfl
  refine ⟨?_, ?_, ?_, ?_, ?_, ?_, ?_, ?_⟩
  · rw [hfalse]; rfl
  · rw [hfalse]
    simp [okOr]
  · rw [hfalse]
    exact lookupResv_delResv_self _ _
  · rw [htrue]; rfl
  · rw [htrue]
    rfl
  · rw [htrue]
    exact lookupResv_delResv_self _ _
  · rw [htrue]
    simp [okOr, deductCredits, getBalance, Except.isOk, Except.toBool, hnf]
  · rw [htrue]
    simp [okOr, execCall, deductCredits, getBalance, hnf]

/-- C4 witness: the spec's double-hold scenario — balance 100, Reserve 14
("op1", balance 86), Release(true) leaves 86, Deduct 20 gives 66 (net
charge 14 + 20); the refund conjunct restores 86 + 14 = 100. -/
theorem releaseReservation_settlement_witness :
    lookupResv c4State.reservations "op1" = some ⟨"u", 14, 1⟩ ∧
    (20 : Int) ≤ c4State.credits "u" ∧
    ((releaseReservation c4State "op1" false).isOk = true ∧
     (okOr (releaseReservation c4State "op1" false) c4State).credits "u"
       = c4State.credits "u" + 14 ∧
     lookupResv (okOr (releaseReservation c4State "op1" false) c4State).reservations "op1"
       = none ∧
     (releaseReservation c4State "op1" true).isOk = true ∧
     (okOr (releaseReservation c4State "op1" true) c4State).credits = c4State.credits ∧
     lookupResv (okOr (releaseReservation c4State "op1" true) c4State).reservations "op1"
       = none ∧
     (deductCredits (okOr (releaseReservation c4State "op1" true) c4State)
         "u" 20 "final" 2).isOk = true ∧
     (execCall "u" 2 (okOr (releaseReservation c4State "op1" true) c4State)
         (Call.deduct 20 "final")).credits "u"
       = c4State.credits "u" - 20) :=
  ⟨by decide, by decide,
    releaseReservation_settlement c4State "op1" "u" 14 1 20 "final" 2
      (by decide) (by decide)⟩

/-- C8 (confirmed).  `releaseReservation` fails with ReservationNotFound
whenever no reservation record exists for the operationId; and a successful
release deletes the record, so a second release of the same operationId
fails with ReservationNotFound. -/
theorem releaseReservation_notFound (st1 st2 : CreditState) (opA opB : String)
    (s s2 : Bool)
    (h1 : lookupResv st1.reservations opA = none)
    (h2 : (releaseReservation st2 opB s).isOk = true) :
    releaseReservation st1 opA s = .error .reservationNotFound ∧
    releaseReservation (okOr (releaseReservation st2 opB s) st2) opB s2
      = .error .reservationNotFound := by
  constructor
  · unfold releaseReservation
    rw [h1]
  · rcases hr : lookupResv st2.reservations opB with _ | r
    · unfold releaseReservation at h2
      rw [hr] at h2
      cases h2
    · have hok : okOr (releaseReservation st2 opB s) st2
          = { st2 with
              credits :=
                if s then st2.credits
                else fun v => if v = r.userId then st2.credits v + r.amount else st2.credits v
              reservations := delResv st2.reservations opB } := by
        unfold releaseReservation
        rw [hr]
        rfl
      rw [hok]
      unfold releaseReservation
      rw [show ({ st2 with
            credits :=
              if s then st2.credits
              else fun v => if v = r.userId then st2.credits v + r.amount else st2.credits v
            reservations := delResv st2.reservations opB } : CreditState).reservations
          = delResv st2.reservations opB from rfl]
      rw [lookupResv_delResv_self]

/-- C8 witness: releasing the never-reserved "opX" on the empty store fails;
after successfully releasing "op1" on the double-hold state, releasing
"op1" again fails. -/
theorem releaseReservation_notFound_witness :
    lookupResv emptyCredit.reservations "opX" = none ∧
    (releaseReservation c4State "op1" true).isOk = true ∧
    (releaseReservation emptyCredit "opX" true = .error .reservationNotFound ∧
     releaseReservation (okOr (releaseReservation c4State "op1" true) c4State) "op1" false
       = .error .reservationNotFound) :=
  ⟨by decide, by decide,
    releaseReservation_notFound emptyCredit c4State "opX" "op1" true false
      (by decide) (by decide)⟩

/-- C5 (confirmed).  `calculateCrawlCost` equals the spec's closed form
`ceil(pages × (1 + max(0, depth-1) × 0.5) + customChecks × 2)` on all
natural-number inputs, `calculateRecheckCost` equals
`ceil(issueCount × 0.5)` by definition, and the four sample values hold.
Both are plain functions of their arguments (no store access). -/
theorem costFormulas_spec (pages depth customChecks issueCount : ℕ) :
    calculateCrawlCost pages depth customChecks
      = specCrawlCost pages depth customChecks ∧
    calculateRecheckCost issueCount = ⌈(issueCount : ℚ) / 2⌉ ∧
    calculateCrawlCost 1 1 0 = 1 ∧
    calculateCrawlCost 1 3 0 = 2 ∧
    calculateCrawlCost 10 1 2 = 14 ∧
    calculateRecheckCost 5 = 3 := by
  refine ⟨?_, ?_, ?_, ?_, ?_, ?_⟩
  · unfold calculateCrawlCost specCrawlCost
    dsimp only
    rcases le_or_lt depth 1 with hd | hd
    · have h1 : ¬ depth > 1 := not_lt.mpr hd
      have h2 : max 0 ((depth : ℤ) - 1) = 0 := by
        rw [max_eq_left]
        omega
      rw [if_neg h1, h2]
      congr 1
      push_cast
      ring
    · have h2 : max 0 ((depth : ℤ) - 1) = (depth : ℤ) - 1 := by
        rw [max_eq_right]
        omega
      rw [if_pos hd, h2]
      congr 1
      have h3 : ((depth - 1 : ℕ) : ℚ) = (depth : ℚ) - 1 := by
        have : 1 ≤ depth := le_of_lt hd
        push_cast [this]
        ring
      rw [h3]
      push_cast
      ring
  · unfold calculateRecheckCost
    congr 1
    rw [show (0.5 : ℚ) = 1 / 2 by norm_num]
    ring
  · norm_num [calculateCrawlCost]
  · norm_num [calculateCrawlCost]
  · norm_num [calculateCrawlCost]
  · norm_num [calculateRecheckCost, Int.ceil_eq_iff]

/-- C9 (amended).  For every limit ≥ 1, `getTransactionHistory` returns the
first `limit` entries of the user's history (LPUSH prepends, so the
transaction appended last comes first: after an `addCredits` the new
transaction is the head), and the result length is at most `limit`.  For
limit = 0 the claim fails: LRANGE(0, -1) returns the whole list (see the
counterexample). -/
theorem getTransactionHistory_spec (st : CreditState) (u : String)
    (limit : Int) (a : Int) (reason : String) (now : Nat)
    (hl : 1 ≤ limit) :
    getTransactionHistory st u limit
      = ((st.history u).take limit.toNat).map (fun i => ⟨i, st.txs i⟩) ∧
    ((getTransactionHistory st u limit).length : Int) ≤ limit ∧
    (getTransactionHistory (addCredits st u a reason now).2 u limit).head?
      = some ⟨now, some ⟨u, a, .add, reason, now⟩⟩ := by
  have key : ∀ (l : List ℕ), redisLrange l 0 (limit - 1) = l.take limit.toNat := by
    intro l
    unfold redisLrange
    dsimp only
    have hs : max (if (0 : Int) < 0 then (l.length : Int) + 0 else 0) 0 = 0 := by
      norm_num
    rw [hs]
    have he : (if limit - 1 < 0 then (l.length : Int) + (limit - 1) else limit - 1)
        = limit - 1 := by
      rw [if_neg]
      omega
    rw [he]
    by_cases hempty : (l.length : Int) = 0
    · have hl0 : l = [] := List.length_eq_zero.mp (by exact_mod_cast hempty)
      subst hl0
      simp
    · have hpos : 0 < (l.length : Int) := by
        have := Int.natCast_nonneg l.length
        omega
      rw [if_neg (by omega)]
      rcases le_or_lt limit (l.length : Int) with hle | hgt
      · have : min (limit - 1) ((l.length : Int) - 1) = limit - 1 := by
          rw [min_eq_left]
          omega
        rw [this]
        norm_num
      · have : min (limit - 1) ((l.length : Int) - 1) = (l.length : Int) - 1 := by
          rw [min_eq_right]
          omega
        rw [this]
        norm_num
        omega
  refine ⟨?_, ?_, ?_⟩
  · unfold getTransactionHistory
    rw [key]
  · unfold getTransactionHistory
    rw [key, List.length_map]
    have h1 : (l : List ℕ) → ((l.take limit.toNat).length : Int) ≤ limit := by
      intro l
      rw [List.length_take]
      have : (min limit.toNat l.length : ℕ) ≤ limit.toNat := Nat.min_le_left _ _
      omega
    exact h1 _
  · unfold getTransactionHistory
    rw [key]
    have hh : ((addCredits st u a reason now).2.history u) = now :: st.history u := by
      unfold addCredits
      simp
    rw [hh]
    have hlt : 1 ≤ limit.toNat := by omega
    rcases Nat.exists_eq_add_of_le hlt with ⟨m, hm⟩
    rw [hm, Nat.add_comm, List.take_succ_cons, List.map_cons, List.head?_cons]
    have htx : (addCredits st u a reason now).2.txs now
        = some ⟨u, a, .add, reason, now⟩ := by
      unfold addCredits
      simp
    rw [htx]

/-- C9 counterexample: with one recorded transaction and limit = 0 the
returned sequence has length 1, because `lrange(key, 0, -1)` asks Redis for
the entire list — refuting "length ≤ limit for every limit". -/
theorem getTransactionHistory_limit_cex :
    ¬ (((getTransactionHistory c9State "u" 0).length : Int) ≤ 0) := by
  decide

/-- C9 witness: limit 2 on the single-transaction state. -/
theorem getTransactionHistory_spec_witness :
    getTransactionHistory c9State "u" 2
      = ((c9State.history "u").take (2 : Int).toNat).map (fun i => ⟨i, c9State.txs i⟩) ∧
    ((getTransactionHistory c9State "u" 2).length : Int) ≤ 2 ∧
    (getTransactionHistory (addCredits c9State "u" 7 "bonus" 1).2 "u" 2).head?
      = some ⟨1, some ⟨"u", 7, .add, "bonus", 1⟩⟩ :=
  getTransactionHistory_spec c9State "u" 2 7 "bonus" 1 (by decide)

/-- C10 (confirmed).  No ledger operation validates `amount > 0`: with a
non-negative balance and any amount ≤ 0, `deductCredits` and
`reserveCredits` succeed (the InsufficientCredits branch needs
balance < amount, which fails), and a strictly negative amount makes them
increase the stored balance; `addCredits` likewise accepts a negative
amount and decreases the balance. -/
theorem no_amount_validation (st : CreditState) (u : String) (amount : Int)
    (reason op : String) (now : Nat)
    (hb : 0 ≤ getBalance st u) (ha : amount ≤ 0) :
    (deductCredits st u amount reason now).isOk = true ∧
    (execCall u now st (Call.deduct amount reason)).credits u
      = st.credits u - amount ∧
    (reserveCredits st u amount op now).isOk = true ∧
    (execCall u now st (Call.reserve amount op)).credits u
      = st.credits u - amount ∧
    (execCall u now st (Call.add amount reason)).credits u
      = st.credits u + amount ∧
    (amount < 0 →
      st.credits u < (execCall u now st (Call.deduct amount reason)).credits u ∧
      st.credits u < (execCall u now st (Call.reserve amount op)).credits u ∧
      (execCall u now st (Call.add amount reason)).credits u < st.credits u) := by
  have hnl : ¬ getBalance st u < amount := by
    intro hc
    unfold getBalance at hb hc
    linarith
  have hnl' : ¬ st.credits u < amount := hnl
  refine ⟨?_, ?_, ?_, ?_, ?_, ?_⟩
  · simp [deductCredits, getBalance, Except.isOk, Except.toBool, hnl']
  · simp [execCall, deductCredits, getBalance, hnl']
  · simp [reserveCredits, getBalance, Except.isOk, Except.toBool, hnl']
  · simp [execCall, reserveCredits, getBalance, hnl']
  · simp [execCall, addCredits]
  · intro hneg
    refine ⟨?_, ?_, ?_⟩
    · simp [execCall, deductCredits, getBalance, hnl']
      linarith
    · simp [execCall, reserveCredits, getBalance, hnl']
      linarith
    · simp [execCall, addCredits]
      linarith

/-- C10 witness: balance 0, amount -5 — deduct and reserve succeed and
raise the balance to 5; add lowers it to -5. -/
theorem no_amount_validation_witness :
    (deductCredits emptyCredit "u" (-5) "odd" 0).isOk = true ∧
    (execCall "u" 0 emptyCredit (Call.deduct (-5) "odd")).credits "u"
      = emptyCredit.credits "u" - (-5) ∧
    (reserveCredits emptyCredit "u" (-5) "opN" 0).isOk = true ∧
    (execCall "u" 0 emptyCredit (Call.reserve (-5) "opN")).credits "u"
      = emptyCredit.credits "u" - (-5) ∧
    (execCall "u" 0 emptyCredit (Call.add (-5) "odd")).credits "u"
      = emptyCredit.credits "u" + (-5) ∧
    ((-5 : Int) < 0 →
      emptyCredit.credits "u" < (execCall "u" 0 emptyCredit (Call.deduct (-5) "odd")).credits "u" ∧
      emptyCredit.credits "u" < (execCall "u" 0 emptyCredit (Call.reserve (-5) "opN")).credits "u" ∧
      (execCall "u" 0 emptyCredit (Call.add (-5) "odd")).credits "u" < emptyCredit.credits "u") :=
  no_amount_validation emptyCredit "u" (-5) "odd" "opN" 0 (by decide) (by decide)

/-- C6 (confirmed).  Admit = isAllowed + trackRequest proceeds in order:
both window sets are purged of scores in [0, now - W] first (concurrency
sets untouched); then the user-window check, the domain-window check and the
domain-concurrency check run in that order on the purged cardinalities,
failing with the corresponding error; otherwise the request id is inserted
into the user window and domain window scored by `now` and into the domain
concurrency set, the window keys get expiry now + W and the concurrency key
expiry now + 300 (the bounded safety TTL), and the request id is returned. -/
theorem acceptRequest_spec (lim : RateLimits) (st : RLState)
    (u d : String) (now : Nat) (rid : String) :
    (∀ v, (purgeWindows lim st u d now).userWindow v
      = if v = u then zremrangebyscore (st.userWindow v) 0 ((now : Int) - lim.userWindow)
        else st.userWindow v) ∧
    (∀ e, (purgeWindows lim st u d now).domainWindow e
      = if e = d then zremrangebyscore (st.domainWindow e) 0 ((now : Int) - lim.domainWindow)
        else st.domainWindow e) ∧
    (purgeWindows lim st u d now).concurrent = st.concurrent ∧
    (acceptRequest lim st u d now rid).2 =
      (if lim.userRequests ≤ ((purgeWindows lim st u d now).userWindow u).length then
        Except.error RLErr.userRateLimit
       else if lim.domainRequests ≤ ((purgeWindows lim st u d now).domainWindow d).length then
        Except.error RLErr.domainRateLimit
       else if lim.domainConcurrent ≤ (st.concurrent d).length then
        Except.error RLErr.concurrencyLimit
       else Except.ok rid) ∧
    (acceptRequest lim st u d now rid).1 =
      (if lim.userRequests ≤ ((purgeWindows lim st u d now).userWindow u).length
          ∨ lim.domainRequests ≤ ((purgeWindows lim st u d now).domainWindow d).length
          ∨ lim.domainConcurrent ≤ (st.concurrent d).length then
        purgeWindows lim st u d now
       else (trackRequest lim (purgeWindows lim st u d now) u d now rid).2) ∧
    (trackRequest lim st u d now rid).1 = rid ∧
    (trackRequest lim st u d now rid).2.userWindow u = zadd (st.userWindow u) now rid ∧
    (trackRequest lim st u d now rid).2.domainWindow d = zadd (st.domainWindow d) now rid ∧
    (trackRequest lim st u d now rid).2.concurrent d = sadd (st.concurrent d) rid ∧
    (trackRequest lim st u d now rid).2.userExpiry u = some (now + lim.userWindow) ∧
    (trackRequest lim st u d now rid).2.domainExpiry d = some (now + lim.domainWindow) ∧
    (trackRequest lim st u d now rid).2.concurrentExpiry d = some (now + 300) := by
  refine ⟨fun v => rfl, fun e => rfl, rfl, ?_, ?_, rfl, ?_, ?_, ?_, ?_, ?_, ?_⟩
  · unfold acceptRequest isAllowed
    dsimp only
    rw [show (purgeWindows lim st u d now).concurrent = st.concurrent from rfl]
    by_cases h1 : lim.userRequests ≤ ((purgeWindows lim st u d now).userWindow u).length
    · rw [if_pos h1, if_pos h1]
    · rw [if_neg h1, if_neg h1]
      by_cases h2 : lim.domainRequests ≤ ((purgeWindows lim st u d now).domainWindow d).length
      · rw [if_pos h2, if_pos h2]
      · rw [if_neg h2, if_neg h2]
        by_cases h3 : lim.domainConcurrent ≤ (st.concurrent d).length
        · rw [if_pos h3, if_pos h3]
        · rw [if_neg h3, if_neg h3]
          rfl
  · unfold acceptRequest isAllowed
    dsimp only
    rw [show (purgeWindows lim st u d now).concurrent = st.concurrent from rfl]
    by_cases h1 : lim.userRequests ≤ ((purgeWindows lim st u d now).userWindow u).length
    · rw [if_pos h1, if_pos (Or.inl h1)]
    · rw [if_neg h1]
      by_cases h2 : lim.domainRequests ≤ ((purgeWindows lim st u d now).domainWindow d).length
      · rw [if_pos h2, if_pos (Or.inr (Or.inl h2))]
      · rw [if_neg h2]
        by_cases h3 : lim.domainConcurrent ≤ (st.concurrent d).length
        · rw [if_pos h3, if_pos (Or.inr (Or.inr h3))]
        · rw [if_neg h3, if_neg (by
            intro hc
            rcases hc with hc | hc | hc
            · exact h1 hc
            · exact h2 hc
            · exact h3 hc)]
  · unfold trackRequest
    dsimp only
    rw [if_pos rfl]
  · unfold trackRequest
    dsimp only
    rw [if_pos rfl]
  · unfold trackRequest
    dsimp only
    rw [if_pos rfl]
  · unfold trackRequest
    dsimp only
    rw [if_pos rfl]
  · unfold trackRequest
    dsimp only
    rw [if_pos rfl]
  · unfold trackRequest
    dsimp only
    rw [if_pos rfl]

/-- C7 (confirmed).  `completeRequest` removes the request id from the
domain's concurrency set and changes nothing else (both window maps and all
expiry deadlines are untouched); and with the default domain cap of 3:
three admissions on one domain succeed, a fourth fails
ConcurrencyLimitExceeded, and after completing one of them the next
admission succeeds. -/
theorem completeRequest_spec (st : RLState) (d rid : String) :
    (completeRequest st d rid).userWindow = st.userWindow ∧
    (completeRequest st d rid).domainWindow = st.domainWindow ∧
    (completeRequest st d rid).userExpiry = st.userExpiry ∧
    (completeRequest st d rid).domainExpiry = st.domainExpiry ∧
    (completeRequest st d rid).concurrentExpiry = st.concurrentExpiry ∧
    (∀ e, (completeRequest st d rid).concurrent e
      = if e = d then (st.concurrent e).filter (fun m => m != rid)
        else st.concurrent e) ∧
    ((acceptRequest defaultLimits emptyRL "u" "d" 0 "r1").2 = .ok "r1" ∧
     (acceptRequest defaultLimits rlSt1 "u" "d" 0 "r2").2 = .ok "r2" ∧
     (acceptRequest defaultLimits rlSt2 "u" "d" 0 "r3").2 = .ok "r3" ∧
     (acceptRequest defaultLimits rlSt3 "u" "d" 0 "r4").2
       = .error .concurrencyLimit ∧
     (acceptRequest defaultLimits (completeRequest rlSt3 "d" "r1")
         "u" "d" 0 "r5").2 = .ok "r5") := by
  refine ⟨rfl, rfl, rfl, rfl, rfl, fun e => rfl,
    by decide, by decide, by decide, by decide, by decide⟩

end CrawlEngine